import Mathlib

/-!
Verification of the chunking / checkpointing / dual-mode orchestration core
of the `large-translate` package, as a shallow embedding in Lean 4.

Embedded source files:
* `src/large_translate/chunking.py` — `ChunkingStrategy.chunk_segments`,
  `ChunkingStrategy._split_large_segment`, `ContextManager`;
* `src/large_translate/checkpoint.py` — `CheckpointData`, `CheckpointManager`
  (`save`/`load`), `serialize_segment`/`deserialize_segment`;
* `src/large_translate/engine.py` — `TranslationEngine.translate_file`,
  `TranslationEngine._translate_chunk`;
* `src/large_translate/batch_engine.py` —
  `BatchTranslationEngine.translate_file_batch`;
* `src/large_translate/models/base.py` — `BatchRequest`, `BatchStatus`,
  `BatchResult`;
* `src/large_translate/parsers/base.py` — `TextSegment`.

Modelling conventions:
* Python `int` is `Int`; Python `str` is `String` (ASCII whitespace classes
  are used for `\s` / `str.strip`, which agree with Python on the inputs
  treated here).
* The external LLM capability is an oracle function; I/O side effects of the
  orchestrators (batch submit / checkpoint save / poll / fetch / write) are
  recorded in an explicit event trace.
* Progress display, logging, per-call statistics and the `tenacity` retry
  wrapper (which re-invokes the same pure call) are not modelled; no claim
  below depends on them.
-/

/-- JSON values as produced/consumed by `json.dump` / `json.load`.  Numbers
are restricted to integers (all numeric checkpoint fields are Python `int`s). -/
inductive Json where
  | null : Json
  | bool (b : Bool) : Json
  | num (n : Int) : Json
  | str (s : String) : Json
  | arr (elems : List Json) : Json
  | obj (pairs : List (String × Json)) : Json

/-- `parsers/base.py` — `TextSegment`.  `metadata: dict[str, Any]` is modelled
as a JSON object (association list); the core only carries it. -/
structure TextSegment where
  text : String
  metadata : List (String × Json) := []
  segment_type : String := "paragraph"
  skip_translation : Bool := false

instance : Inhabited TextSegment := ⟨{ text := "" }⟩

/-- Python `\s` on the ASCII range (as used by `re.split` in
`_split_large_segment` and by `str.strip`). -/
def isSpace (c : Char) : Bool :=
  c = ' ' || c = '\t' || c = '\n' || c = '\r' || c = '\x0b' || c = '\x0c'

/-- Sentence-ending punctuation class `[.!?]` of the splitting regex. -/
def isSentenceEnd (c : Char) : Bool :=
  c = '.' || c = '!' || c = '?'

def headIsSpace : List Char → Bool
  | [] => false
  | c :: _ => isSpace c

/-- No sentence-split point at the junction of `a` and `b`: not
(sentence-ending punctuation followed by whitespace). -/
def pairOK (a b : Char) : Bool := !(isSentenceEnd a && isSpace b)

/-- The character list contains no splitting point of the sentence regex:
no position where a `[.!?]` character is immediately followed by
whitespace. -/
def sentenceBreakFree : List Char → Bool
  | [] => true
  | [_] => true
  | a :: b :: t => pairOK a b && sentenceBreakFree (b :: t)

/-- One-pass splitter equivalent to `re.split(r"(?<=[.!?])\s+", text)`
(`chunking.py` line 117): a split point is a maximal whitespace run whose
preceding character is `.`, `!` or `?`; the whitespace is consumed.
`acc = some piece` accumulates the current piece (reversed); `acc = none`
means we are inside a separator whitespace run. -/
def splitSentencesAux : List Char → Option (List Char) → List (List Char)
  | [], none => [[]]
  | [], some acc => [acc.reverse]
  | c :: rest, none =>
    if isSpace c then
      splitSentencesAux rest none
    else if isSentenceEnd c && headIsSpace rest then
      [c] :: splitSentencesAux rest none
    else
      splitSentencesAux rest (some [c])
  | c :: rest, some acc =>
    if isSentenceEnd c && headIsSpace rest then
      (acc.reverse ++ [c]) :: splitSentencesAux rest none
    else
      splitSentencesAux rest (some (c :: acc))

def splitSentences (s : String) : List String :=
  (splitSentencesAux s.data (some [])).map (fun l => ⟨l⟩)

/-- Python `str.strip()` (whitespace from both ends). -/
def pyStrip (s : String) : String :=
  ⟨((s.data.dropWhile isSpace).reverse.dropWhile isSpace).reverse⟩

/-- The sub-segment constructed at `chunking.py` lines 130/141:
`TextSegment(text=current_text.strip(), metadata=segment.metadata.copy(),
segment_type=segment.segment_type)` — `skip_translation` takes its default
`False`. -/
def mkSubSegment (seg : TextSegment) (text : String) : TextSegment :=
  { text := pyStrip text
    metadata := seg.metadata
    segment_type := seg.segment_type }

/-- Loop body of `_split_large_segment` (`chunking.py` lines 122-138); the
state is `(sub_segments, current_text)`. -/
def splitLargeStep (maxTokens : Int) (tc : String → Int) (seg : TextSegment)
    (st : List TextSegment × String) (sentence : String) :
    List TextSegment × String :=
  let potential :=
    if st.2 = "" then sentence else pyStrip (st.2 ++ " " ++ sentence)
  if tc potential > maxTokens then
    if st.2 = "" then (st.1, sentence)
    else (st.1 ++ [mkSubSegment seg st.2], sentence)
  else
    (st.1, potential)

/-- `ChunkingStrategy._split_large_segment` (`chunking.py` lines 109-149). -/
def split_large_segment (maxTokens : Int) (tc : String → Int)
    (seg : TextSegment) : List TextSegment :=
  let st := (splitSentences seg.text).foldl (splitLargeStep maxTokens tc seg) ([], "")
  if st.2 = "" then st.1 else st.1 ++ [mkSubSegment seg st.2]

/-- `chunking.py` — `Chunk`. -/
structure Chunk where
  segments : List TextSegment
  token_count : Int
  chunk_index : Nat
  total_chunks : Nat := 0

/-- The flush step of `chunk_segments`: emit the current accumulator as a
chunk (with `chunk_index = len(chunks)`) if it is non-empty. -/
def flushChunk (chunks : List Chunk) (cur : List TextSegment) (curTok : Int) :
    List Chunk :=
  if cur.isEmpty then chunks
  else chunks ++ [{ segments := cur, token_count := curTok, chunk_index := chunks.length }]

/-- Loop body of `ChunkingStrategy.chunk_segments` (`chunking.py` lines
40-90); the state is `(chunks, current_segments, current_tokens)`. -/
def chunkStep (maxTokens : Int) (tc : String → Int)
    (st : List Chunk × List TextSegment × Int) (seg : TextSegment) :
    List Chunk × List TextSegment × Int :=
  let chunks := st.1
  let cur := st.2.1
  let curTok := st.2.2
  if seg.skip_translation then
    (chunks, cur ++ [seg], curTok)
  else
    let segTok := tc seg.text
    if segTok > maxTokens then
      let flushed := flushChunk chunks cur curTok
      let subs := split_large_segment maxTokens tc seg
      (subs.foldl
        (fun cs sub =>
          cs ++ [{ segments := [sub], token_count := tc sub.text, chunk_index := cs.length }])
        flushed, [], 0)
    else if curTok + segTok > maxTokens then
      (flushChunk chunks cur curTok, [seg], segTok)
    else
      (chunks, cur ++ [seg], curTok + segTok)

/-- `ChunkingStrategy.chunk_segments` (`chunking.py` lines 25-107), including
the final flush and the retroactive `total_chunks` update. -/
def chunk_segments (maxTokens : Int) (segments : List TextSegment)
    (tc : String → Int) : List Chunk :=
  let st := segments.foldl (chunkStep maxTokens tc) ([], [], 0)
  let chunks := flushChunk st.1 st.2.1 st.2.2
  chunks.map (fun c => { c with total_chunks := chunks.length })

/-- Concatenation of all chunks' segments in chunk order. -/
def joinChunkSegments (chunks : List Chunk) : List TextSegment :=
  (chunks.map (·.segments)).flatten

/-- First index at which `pat` occurs in the list, Python `str.find` style. -/
def findSub (pat : List Char) : List Char → Option Nat
  | [] => if pat.isPrefixOf ([] : List Char) then some 0 else none
  | c :: t => if pat.isPrefixOf (c :: t) then some 0 else (findSub pat t).map (· + 1)

/-- `ContextManager.get_context` (`chunking.py` lines 159-175):
join the last two recorded outputs; if longer than `context_length`, keep the
trailing window and, when a `". "` occurs inside it, trim to just after it. -/
def get_context (contextLength : Nat) (history : List String)
    (chunkIndex : Nat) : Option String :=
  if chunkIndex = 0 || history.isEmpty then none
  else
    let recent := String.intercalate " " (history.drop (history.length - 2))
    if recent.length > contextLength then
      let truncated : String := ⟨recent.data.drop (recent.data.length - contextLength)⟩
      match findSub ['.', ' '] truncated.data with
      | some i => some ⟨truncated.data.drop (i + 2)⟩
      | none => some truncated
    else some recent

/-- Python `text.split("\\n\\n")` specialized to the fixed two-newline
separator used by both orchestrators: maximal-munch scan emitting a piece at
every non-overlapping occurrence of the separator. -/
def splitSep : List Char → List Char → List (List Char)
  | [], acc => [acc.reverse]
  | '\n' :: '\n' :: rest, acc => acc.reverse :: splitSep rest []
  | c :: rest, acc => splitSep rest (c :: acc)

def pySplitOnSep (s : String) : List String :=
  (splitSep s.data []).map (fun l => ⟨l⟩)

/-- The positional reassembly loop shared verbatim by
`TranslationEngine._translate_chunk` (`engine.py` lines 205-228) and the
batch reconstruction step (`batch_engine.py` lines 241-260): skip segments
are kept in place; the i-th translatable segment receives the i-th part
(`""` once parts run out); `skip_translation` of a rebuilt segment takes its
default `False`. -/
def reconstructSegments : List TextSegment → List String → List TextSegment
  | [], _ => []
  | s :: rest, parts =>
    if s.skip_translation then
      s :: reconstructSegments rest parts
    else
      { text := parts.headD ""
        metadata := s.metadata
        segment_type := s.segment_type } :: reconstructSegments rest parts.tail

/-- Translatable segments of a chunk (`not s.skip_translation`). -/
def translatableOf (c : Chunk) : List TextSegment :=
  c.segments.filter (fun s => !s.skip_translation)

/-- `TranslationEngine._translate_chunk` (`engine.py` lines 173-228) with the
LLM `translate` call abstracted as `oracle (combined_text) (context)`.
Returns the rebuilt segments and, when the capability was invoked, the
translated combined text (recorded into the context history by the caller). -/
def translate_chunk (chunk : Chunk) (context : Option String)
    (oracle : String → Option String → String) :
    List TextSegment × Option String :=
  if (translatableOf chunk).isEmpty then
    (chunk.segments, none)
  else
    let combined := String.intercalate "\n\n" ((translatableOf chunk).map (·.text))
    let translated := oracle combined context
    (reconstructSegments chunk.segments (pySplitOnSep translated), some translated)

/-- `checkpoint.py` — `CheckpointData`.  `translated_segments` is stored by
the Python code as a list of dicts produced by `serialize_segment`; since
`serialize_segment`/`deserialize_segment` round-trip (proved below), this
model carries the segments themselves and the codec applies the segment
(de)serialization.  `chunk_mapping: dict | None` is a JSON object or absent. -/
structure CheckpointData where
  engine_type : String
  input_path : String
  output_path : String
  target_language : String
  source_language : Option String
  chunk_size : Int
  last_completed_chunk : Int
  total_chunks : Int
  translated_segments : List TextSegment
  context_history : List String
  batch_id : Option String := none
  batch_stage : Option String := none
  chunk_mapping : Option (List (String × Json)) := none

/-- `checkpoint.py` — `serialize_segment` (lines 99-106). -/
def serialize_segment (s : TextSegment) : Json :=
  .obj [("text", .str s.text), ("metadata", .obj s.metadata),
        ("segment_type", .str s.segment_type),
        ("skip_translation", .bool s.skip_translation)]

/-- Python dict lookup on a parsed JSON object. -/
def lookupJson (pairs : List (String × Json)) (k : String) : Option Json :=
  (pairs.find? (fun p => p.1 = k)).map (·.2)

/-- `checkpoint.py` — `deserialize_segment` (lines 109-120) composed with the
`TextSegment(**·)` construction: `text` is required, the other fields take
the documented defaults when absent; present fields must have the declared
shapes. -/
def deserialize_segment (j : Json) : Option TextSegment :=
  match j with
  | .obj pairs =>
    match lookupJson pairs "text" with
    | some (.str t) =>
      let md := match lookupJson pairs "metadata" with
        | some (.obj m) => some m
        | none => some []
        | _ => none
      let ty := match lookupJson pairs "segment_type" with
        | some (.str ty) => some ty
        | none => some "paragraph"
        | _ => none
      let sk := match lookupJson pairs "skip_translation" with
        | some (.bool b) => some b
        | none => some false
        | _ => none
      match md, ty, sk with
      | some md, some ty, some sk =>
        some { text := t, metadata := md, segment_type := ty, skip_translation := sk }
      | _, _, _ => none
    | _ => none
  | _ => none

def encodeOptStr : Option String → Json
  | none => .null
  | some s => .str s

def encodeOptObj : Option (List (String × Json)) → Json
  | none => .null
  | some m => .obj m

/-- `CheckpointManager.save` serialization (`checkpoint.py` lines 45-61):
`json.dump(asdict(data))` — every field is emitted, `None` as `null`. -/
def encodeCheckpoint (cp : CheckpointData) : Json :=
  .obj [("engine_type", .str cp.engine_type),
        ("input_path", .str cp.input_path),
        ("output_path", .str cp.output_path),
        ("target_language", .str cp.target_language),
        ("source_language", encodeOptStr cp.source_language),
        ("chunk_size", .num cp.chunk_size),
        ("last_completed_chunk", .num cp.last_completed_chunk),
        ("total_chunks", .num cp.total_chunks),
        ("translated_segments", .arr (cp.translated_segments.map serialize_segment)),
        ("context_history", .arr (cp.context_history.map .str)),
        ("batch_id", encodeOptStr cp.batch_id),
        ("batch_stage", encodeOptStr cp.batch_stage),
        ("chunk_mapping", encodeOptObj cp.chunk_mapping)]

def checkpointFieldNames : List String :=
  ["engine_type", "input_path", "output_path", "target_language",
   "source_language", "chunk_size", "last_completed_chunk", "total_chunks",
   "translated_segments", "context_history", "batch_id", "batch_stage",
   "chunk_mapping"]

def decodeStr : Option Json → Option String
  | some (.str s) => some s
  | _ => none

def decodeInt : Option Json → Option Int
  | some (.num n) => some n
  | _ => none

/-- A present field that is `null` decodes to Python `None`. -/
def decodeOptStr : Option Json → Option (Option String)
  | some .null => some none
  | some (.str s) => some (some s)
  | _ => none

/-- Optional field with default `None`: absent or `null` decodes to `None`. -/
def decodeOptStrDefault : Option Json → Option (Option String)
  | none => some none
  | some .null => some none
  | some (.str s) => some (some s)
  | _ => none

def decodeOptObjDefault : Option Json → Option (Option (List (String × Json)))
  | none => some none
  | some .null => some none
  | some (.obj m) => some (some m)
  | _ => none

/-- Decode every element of a JSON array, failing if any element fails. -/
def decodeList {α : Type} (f : Json → Option α) : List Json → Option (List α)
  | [] => some []
  | j :: rest =>
    match f j, decodeList f rest with
    | some a, some as => some (a :: as)
    | _, _ => none

def decodeStrList : Option Json → Option (List String)
  | some (.arr l) => decodeList (fun j => match j with | .str s => some s | _ => none) l
  | _ => none

def decodeSegList : Option Json → Option (List TextSegment)
  | some (.arr l) => decodeList deserialize_segment l
  | _ => none

/-- `CheckpointManager.load` parsing (`checkpoint.py` lines 81-87):
`CheckpointData(**json.load(f))`, where an unexpected key or a missing
required key raises `TypeError` (caught and turned into `None`); fields with
dataclass defaults may be absent.  Present fields are checked against the
declared field types, and `translated_segments` is decoded through
`deserialize_segment` (applied by the engine at `engine.py` lines 79-81). -/
def decodeCheckpoint (j : Json) : Option CheckpointData :=
  match j with
  | .obj pairs =>
    if pairs.all (fun p => checkpointFieldNames.contains p.1) then
      match decodeStr (lookupJson pairs "engine_type"),
            decodeStr (lookupJson pairs "input_path"),
            decodeStr (lookupJson pairs "output_path"),
            decodeStr (lookupJson pairs "target_language"),
            decodeOptStr (lookupJson pairs "source_language"),
            decodeInt (lookupJson pairs "chunk_size"),
            decodeInt (lookupJson pairs "last_completed_chunk"),
            decodeInt (lookupJson pairs "total_chunks"),
            decodeSegList (lookupJson pairs "translated_segments"),
            decodeStrList (lookupJson pairs "context_history"),
            decodeOptStrDefault (lookupJson pairs "batch_id"),
            decodeOptStrDefault (lookupJson pairs "batch_stage"),
            decodeOptObjDefault (lookupJson pairs "chunk_mapping") with
      | some et, some ip, some op, some tl, some sl, some cs, some lc, some tc,
        some ts, some ch, some bi, some bs, some cm =>
        some { engine_type := et, input_path := ip, output_path := op,
               target_language := tl, source_language := sl, chunk_size := cs,
               last_completed_chunk := lc, total_chunks := tc,
               translated_segments := ts, context_history := ch,
               batch_id := bi, batch_stage := bs, chunk_mapping := cm }
      | _, _, _, _, _, _, _, _, _, _, _, _, _ => none
    else none
  | _ => none

/-- `CheckpointManager.load` (`checkpoint.py` lines 71-87): absent file or
unparseable content yields `None`, never an error. -/
def loadCheckpoint (fileContent : Option Json) : Option CheckpointData :=
  fileContent.bind decodeCheckpoint

/-- Observable filesystem state around the checkpoint path: the canonical
checkpoint file content and whether the sibling temporary file exists. -/
structure FsState where
  checkpoint : Option Json
  tempExists : Bool

/-- `CheckpointManager.save` (`checkpoint.py` lines 45-69) as the sequence of
observable filesystem states it passes through.  `writeOk` selects whether
the serialization/write into the temporary file succeeds; on failure the
temporary file is unlinked and the exception re-raised (second component
`false`), with the canonical checkpoint untouched; on success `os.replace`
atomically installs the new content. -/
def save (fs : FsState) (data : CheckpointData) (writeOk : Bool) :
    List FsState × Bool :=
  let afterTemp : FsState := { checkpoint := fs.checkpoint, tempExists := true }
  if writeOk then
    ([afterTemp, { checkpoint := some (encodeCheckpoint data), tempExists := false }], true)
  else
    ([afterTemp, { checkpoint := fs.checkpoint, tempExists := false }], false)

/-- Python list slicing `l[i:]` for a possibly negative `int` index. -/
def pySlice {α : Type} (l : List α) (i : Int) : List α :=
  if 0 ≤ i then l.drop i.toNat else l.drop ((l.length : Int) + i).toNat

/-- Checkpoint validation of `TranslationEngine.translate_file`
(`engine.py` lines 70-76): resume only when the checkpoint is present, has
`engine_type == "real-time"` and matching `input_path`, `target_language`
and `total_chunks`. -/
def syncResume (chunks : List Chunk) (inputPath targetLanguage : String) :
    Option CheckpointData → Option CheckpointData
  | some cp =>
    if cp.engine_type = "real-time" ∧ cp.input_path = inputPath ∧
        cp.target_language = targetLanguage ∧
        cp.total_chunks = (chunks.length : Int) then
      some cp
    else none
  | none => none

/-- The per-chunk loop of `translate_file` (`engine.py` lines 112-150),
parameterized by the context history accumulated so far.  Returns the output
segments, the context-history entries appended, and the `(combined_text,
context)` arguments of each LLM call made.  The per-chunk checkpoint write
(lines 131-146) and progress/statistics updates do not affect these values
and are modelled only in that the history/segment accumulators advance
exactly as in the source. -/
def processChunks (oracle : String → Option String → String)
    (hist : List String) :
    List Chunk → List TextSegment × List String × List (String × Option String)
  | [] => ([], [], [])
  | c :: rest =>
    let ctx := get_context 200 hist c.chunk_index
    let r := translate_chunk c ctx oracle
    let newEntries := r.2.toList
    let calls :=
      if (translatableOf c).isEmpty then ([] : List (String × Option String))
      else [(String.intercalate "\n\n" ((translatableOf c).map (·.text)), ctx)]
    let next := processChunks oracle (hist ++ newEntries) rest
    (r.1 ++ next.1, newEntries ++ next.2.1, calls ++ next.2.2)

/-- Result of a synchronous run: final output segments, final context
history, LLM calls made, and the resumed flag. -/
structure SyncRun where
  translated_segments : List TextSegment
  context_history : List String
  calls : List (String × Option String)
  resumed : Bool

/-- `TranslationEngine.translate_file` (`engine.py` lines 34-166) after
parsing and chunking: checkpoint validation, resume bookkeeping
(`start_chunk = last_completed_chunk + 1`, verbatim restore of
`translated_segments` and `context_history`), and the per-chunk loop over
`chunks[start_chunk:]`.  Output writing and checkpoint cleanup follow the
loop and do not alter the returned data. -/
def translate_file (chunks : List Chunk) (inputPath targetLanguage : String)
    (checkpoint : Option CheckpointData)
    (oracle : String → Option String → String) : SyncRun :=
  match syncResume chunks inputPath targetLanguage checkpoint with
  | some cp =>
    let r := processChunks oracle cp.context_history
      (pySlice chunks (cp.last_completed_chunk + 1))
    { translated_segments := cp.translated_segments ++ r.1
      context_history := cp.context_history ++ r.2.1
      calls := r.2.2
      resumed := true }
  | none =>
    let r := processChunks oracle [] chunks
    { translated_segments := r.1
      context_history := r.2.1
      calls := r.2.2
      resumed := false }

/-- `models/base.py` — `BatchRequest`. -/
structure BatchRequest where
  custom_id : String
  text : String
  target_language : String
  source_language : Option String := none

/-- `models/base.py` — `BatchStatus`. -/
structure BatchStatus where
  status : String
  completed : Int
  total : Int

/-- `models/base.py` — `BatchResult`. -/
structure BatchResult where
  custom_id : String
  translated_text : Option String
  error : Option String := none

/-- External effects of a batch-mode run, in execution order. -/
inductive BatchEvent where
  | createBatch (requests : List BatchRequest)
  | saveCheckpoint (cp : CheckpointData)
  | getBatchStatus (batchId : String)
  | getBatchResults (batchId : String)
  | writeOutput (segments : List TextSegment)
  | cleanCheckpoint

/-- `f"chunk-{i}"` — the correlation id of chunk `i`. -/
def chunkCustomId (i : Nat) : String := "chunk-" ++ toString i

/-- Request construction of `translate_file_batch` (`batch_engine.py` lines
70-90): one request per chunk with translatable content. -/
def buildBatchRequests (chunks : List Chunk) (targetLanguage : String)
    (sourceLanguage : Option String) : List BatchRequest :=
  chunks.enum.filterMap (fun p =>
    if (translatableOf p.2).isEmpty then none
    else some
      { custom_id := chunkCustomId p.1
        text := String.intercalate "\n\n" ((translatableOf p.2).map (·.text))
        target_language := targetLanguage
        source_language := sourceLanguage })

/-- `chunk_mapping_serialized` (`batch_engine.py` lines 102-109):
`custom_id → {"index": i, "segments": [serialize_segment(s), ...]}`. -/
def chunkMappingSerialized (chunks : List Chunk) : List (String × Json) :=
  chunks.enum.filterMap (fun p =>
    if (translatableOf p.2).isEmpty then none
    else some (chunkCustomId p.1,
      Json.obj [("index", .num p.1), ("segments", .arr (p.2.segments.map serialize_segment))]))

/-- Python truthiness of an optional string (`if checkpoint.batch_id`,
`if result.translated_text`): `None` and `""` are falsy. -/
def truthyOptStr : Option String → Bool
  | none => false
  | some s => !(s = "")

/-- The batch checkpoint records written at each stage transition
(`batch_engine.py` lines 140-156, 172-188, 206-222): `engine_type="batch"`,
empty sync accumulators, and the given stage/progress/batch id/mapping. -/
def mkBatchCp (inputPath outputPath targetLanguage : String)
    (sourceLanguage : Option String) (chunkSize : Int) (stage : String)
    (lastCompleted : Int) (totalChunks : Int) (batchId : String)
    (mapping : List (String × Json)) : CheckpointData :=
  { engine_type := "batch"
    input_path := inputPath
    output_path := outputPath
    target_language := targetLanguage
    source_language := sourceLanguage
    chunk_size := chunkSize
    last_completed_chunk := lastCompleted
    total_chunks := totalChunks
    translated_segments := []
    context_history := []
    batch_id := some batchId
    batch_stage := some stage
    chunk_mapping := some mapping }

/-- The polling loop (`batch_engine.py` lines 166-198): each iteration calls
`get_batch_status`, writes a `polling` checkpoint with
`last_completed_chunk = status.completed - 1`, and stops when the status is
`"completed"`.  `statuses n` is the oracle's answer to the n-th poll; `fuel`
bounds the number of further iterations (the Python loop has no bound, so a
run that never completes is modelled by exhausting any finite fuel).
Returns whether the loop terminated and the events in order. -/
def pollIterEvents (mkPollCp : Int → CheckpointData) (batchId : String)
    (status : BatchStatus) : List BatchEvent :=
  [BatchEvent.getBatchStatus batchId,
   BatchEvent.saveCheckpoint (mkPollCp status.completed)]

def pollLoop (mkPollCp : Int → CheckpointData) (batchId : String)
    (statuses : Nat → BatchStatus) : Nat → Nat → Bool × List BatchEvent
  | n, 0 =>
    if (statuses n).status = "completed" then
      (true, pollIterEvents mkPollCp batchId (statuses n))
    else (false, pollIterEvents mkPollCp batchId (statuses n))
  | n, fuel + 1 =>
    if (statuses n).status = "completed" then
      (true, pollIterEvents mkPollCp batchId (statuses n))
    else
      let r := pollLoop mkPollCp batchId statuses (n + 1) fuel
      (r.1, pollIterEvents mkPollCp batchId (statuses n) ++ r.2)

/-- Result-map construction (`batch_engine.py` lines 224-233): only results
with truthy `translated_text` enter the dict, later entries overwriting
earlier ones; a result with falsy text and an error only produces a
warning. -/
def translationsOf (results : List BatchResult) (customId : String) :
    Option String :=
  ((results.filter (fun r => r.custom_id = customId &&
      truthyOptStr r.translated_text)).getLast?).bind (·.translated_text)

/-- Reconstruction of one chunk (`batch_engine.py` lines 237-263): a chunk
whose correlation id has a (truthy) translation is rebuilt positionally;
otherwise its original segments are kept. -/
def assembleChunk (translations : String → Option String) (i : Nat)
    (c : Chunk) : List TextSegment :=
  match translations (chunkCustomId i) with
  | some t => reconstructSegments c.segments (pySplitOnSep t)
  | none => c.segments

/-- Step 8 of `translate_file_batch`: reassembly of all chunks in original
order. -/
def batchAssemble (chunks : List Chunk)
    (translations : String → Option String) : List TextSegment :=
  (chunks.enum.map (fun p => assembleChunk translations p.1 p.2)).flatten

/-- Checkpoint validation of `translate_file_batch` (`batch_engine.py` lines
116-129): the recorded `batch_id` is reused only when the checkpoint has
`engine_type == "batch"`, matching `input_path`, `target_language` and
`total_chunks`, and a truthy `batch_id` (Python `if checkpoint.batch_id:`,
so `None` and `""` both fail). -/
def batchResume (chunks : List Chunk) (inputPath targetLanguage : String) :
    Option CheckpointData → Option String
  | some cp =>
    if cp.engine_type = "batch" && cp.input_path = inputPath &&
        cp.target_language = targetLanguage &&
        cp.total_chunks = (chunks.length : Int) && truthyOptStr cp.batch_id then
      cp.batch_id
    else none
  | none => none

/-- Result of a batch run: the written output segments (`none` when the
polling fuel ran out, i.e. the process was killed while polling), the event
trace, and the resumed flag. -/
structure BatchRun where
  output : Option (List TextSegment)
  events : List BatchEvent
  resumed : Bool

/-- `BatchTranslationEngine.translate_file_batch` (`batch_engine.py` lines
32-283) after parsing: chunking, request construction, the
no-translatable-content early return (before any checkpoint interaction),
checkpoint validation (`engine_type == "batch"`, matching `input_path`,
`target_language`, `total_chunks`, truthy `batch_id`), submission with the
post-submit `submitted` checkpoint when not resuming, the polling loop, the
`results_fetched` checkpoint, reassembly, output write and checkpoint
cleanup.  `newBatchId` is the id the capability would return from
`create_batch`; `results` the fetched result list. -/
def translate_file_batch (segments : List TextSegment) (tc : String → Int)
    (maxTokens : Int) (inputPath outputPath targetLanguage : String)
    (sourceLanguage : Option String) (checkpoint : Option CheckpointData)
    (newBatchId : String) (statuses : Nat → BatchStatus)
    (results : List BatchResult) (fuel : Nat) : BatchRun :=
  let chunks := chunk_segments maxTokens segments tc
  let requests := buildBatchRequests chunks targetLanguage sourceLanguage
  if requests.isEmpty then
    { output := some segments, events := [.writeOutput segments], resumed := false }
  else
    let mapping := chunkMappingSerialized chunks
    let mkCp := mkBatchCp inputPath outputPath targetLanguage sourceLanguage maxTokens
    let resumeId := batchResume chunks inputPath targetLanguage checkpoint
    let bid := resumeId.getD newBatchId
    let resumed := resumeId.isSome
    let preEvents : List BatchEvent :=
      match resumeId with
      | some _ => []
      | none =>
        [.createBatch requests,
         .saveCheckpoint (mkCp "submitted" (-1) (chunks.length : Int) newBatchId mapping)]
    let poll := pollLoop
      (fun completed => mkCp "polling" (completed - 1) (chunks.length : Int) bid mapping)
      bid statuses 0 fuel
    if poll.1 then
      let assembled := batchAssemble chunks (translationsOf results)
      { output := some assembled
        events := preEvents ++ poll.2 ++
          [.getBatchResults bid,
           .saveCheckpoint (mkCp "results_fetched" ((chunks.length : Int) - 1)
             (chunks.length : Int) bid mapping),
           .writeOutput assembled, .cleanCheckpoint]
        resumed := resumed }
    else
      { output := none, events := preEvents ++ poll.2, resumed := resumed }

/-- The combined request text of a chunk (`"\n\n".join(...)` over its
translatable segments), as submitted in both orchestrators. -/
def combinedText (c : Chunk) : String :=
  String.intercalate "\n\n" ((translatableOf c).map (·.text))

/-- Number of translatable segments strictly before position `i`
(the value of `trans_idx` when the loop reaches position `i`). -/
def transIdxBefore (segs : List TextSegment) (i : Nat) : Nat :=
  ((segs.take i).filter (fun s => !s.skip_translation)).length

def isCreateBatchEvent : BatchEvent → Bool
  | .createBatch _ => true
  | _ => false

def isSaveEvent : BatchEvent → Bool
  | .saveCheckpoint _ => true
  | _ => false

/-- A sample injected token counter (character count), used for concrete
instantiations. -/
def strLenTc (s : String) : Int := (s.length : Int)

/-- Concrete one-segment document for concrete instantiations. -/
def segHi : TextSegment := { text := "hi" }

/-- A poll oracle whose first answer already reports completion. -/
def statusesDone : Nat → BatchStatus :=
  fun _ => { status := "completed", completed := 1, total := 1 }

/-- A checkpoint for the job `("in.md", "fr", 1 chunk)` in batch mode whose
recorded `batch_id` is present but empty. -/
def emptyBatchIdCp : CheckpointData :=
  { engine_type := "batch", input_path := "in.md", output_path := "out.md",
    target_language := "fr", source_language := none, chunk_size := 10,
    last_completed_chunk := -1, total_chunks := 1, translated_segments := [],
    context_history := [], batch_id := some "", batch_stage := some "submitted",
    chunk_mapping := none }

/-! ## Claim C7 — atomic checkpoint save -/

/-- C7: `CheckpointManager.save` writes to a sibling temporary file and then
atomically replaces the canonical path; on a failure before the replace the
temporary file is removed and the previously stored checkpoint is unchanged;
at every observable instant the canonical checkpoint is either the old or
the new content, never a partial write. -/
theorem checkpoint_save_atomic (fs : FsState) (data : CheckpointData) :
    (save fs data false).1.getLast? =
        some { checkpoint := fs.checkpoint, tempExists := false } ∧
      (save fs data false).2 = false ∧
      (save fs data true).1.getLast? =
        some { checkpoint := some (encodeCheckpoint data), tempExists := false } ∧
      ∀ s ∈ (save fs data true).1 ++ (save fs data false).1,
        s.checkpoint = fs.checkpoint ∨ s.checkpoint = some (encodeCheckpoint data) := by
  refine ⟨rfl, rfl, rfl, ?_⟩
  intro s hs
  have hs' : s ∈ [({ checkpoint := fs.checkpoint, tempExists := true } : FsState),
      { checkpoint := some (encodeCheckpoint data), tempExists := false },
      { checkpoint := fs.checkpoint, tempExists := true },
      { checkpoint := fs.checkpoint, tempExists := false }] := hs
  simp only [List.mem_cons, List.not_mem_nil, or_false] at hs'
  rcases hs' with rfl | rfl | rfl | rfl <;> simp

/-- Witness for C7 at a concrete filesystem state and checkpoint. -/
theorem checkpoint_save_atomic_witness :
    ((save { checkpoint := some .null, tempExists := false }
        { engine_type := "real-time", input_path := "a", output_path := "b",
          target_language := "fr", source_language := none, chunk_size := 10,
          last_completed_chunk := 0, total_chunks := 1,
          translated_segments := [], context_history := [] } false).1.getLast?).map
      (·.checkpoint) = some (some .null) := by
  rw [(checkpoint_save_atomic
    { checkpoint := some .null, tempExists := false }
    { engine_type := "real-time", input_path := "a", output_path := "b",
      target_language := "fr", source_language := none, chunk_size := 10,
      last_completed_chunk := 0, total_chunks := 1,
      translated_segments := [], context_history := [] }).1]
  rfl

/-! ## Claim C2 — exact resume of the synchronous orchestrator -/

/-- C2: when the loaded checkpoint matches the current job (`engine_type
"real-time"`, same `input_path`, `target_language`, `total_chunks`) and has
`last_completed_chunk = k ≥ 0`, the synchronous run restores
`translated_segments` and `context_history` verbatim and processes exactly
`chunks[k+1:]`: the final segment list is the restored prefix followed by
the outputs of the remaining chunks, the final history extends the restored
history, and every LLM call made comes from the remaining chunks. -/
theorem sync_resume_exact (chunks : List Chunk) (cp : CheckpointData)
    (inputPath targetLanguage : String)
    (oracle : String → Option String → String) (k : Int)
    (hmode : cp.engine_type = "real-time") (hin : cp.input_path = inputPath)
    (htgt : cp.target_language = targetLanguage)
    (htot : cp.total_chunks = (chunks.length : Int))
    (hk : cp.last_completed_chunk = k) (hk0 : 0 ≤ k) :
    translate_file chunks inputPath targetLanguage (some cp) oracle =
      { translated_segments := cp.translated_segments ++
          (processChunks oracle cp.context_history (chunks.drop (k + 1).toNat)).1
        context_history := cp.context_history ++
          (processChunks oracle cp.context_history (chunks.drop (k + 1).toNat)).2.1
        calls := (processChunks oracle cp.context_history (chunks.drop (k + 1).toNat)).2.2
        resumed := true } := by
  have hres : syncResume chunks inputPath targetLanguage (some cp) = some cp := by
    simp [syncResume, hmode, hin, htgt, htot]
  have hslice : pySlice chunks (cp.last_completed_chunk + 1) =
      chunks.drop (k + 1).toNat := by
    rw [hk]
    unfold pySlice
    rw [if_pos (show (0:Int) ≤ k + 1 by omega)]
  unfold translate_file
  simp only [hres, hslice]

/-- Witness for C2: one-chunk job resumed at `k = 0` re-translates nothing. -/
theorem sync_resume_exact_witness :
    (translate_file
      [{ segments := [{ text := "hi" }], token_count := 2,
         chunk_index := 0, total_chunks := 1 }] "in.md" "fr"
      (some { engine_type := "real-time", input_path := "in.md",
              output_path := "out.md", target_language := "fr",
              source_language := none, chunk_size := 10,
              last_completed_chunk := 0, total_chunks := 1,
              translated_segments := [{ text := "salut" }],
              context_history := ["salut"] })
      (fun _ _ => "X")).translated_segments = [{ text := "salut" }] := by
  rw [sync_resume_exact
    [{ segments := [{ text := "hi" }], token_count := 2,
       chunk_index := 0, total_chunks := 1 }]
    { engine_type := "real-time", input_path := "in.md",
      output_path := "out.md", target_language := "fr",
      source_language := none, chunk_size := 10,
      last_completed_chunk := 0, total_chunks := 1,
      translated_segments := [{ text := "salut" }],
      context_history := ["salut"] }
    "in.md" "fr" (fun _ _ => "X") 0 rfl rfl rfl rfl rfl (le_refl 0)]
  rfl

/-! ## Claim C6 — corrupt or mismatched checkpoint treated as absent -/

/-- C6: a checkpoint file whose content fails to parse loads as absent, and
a loaded checkpoint whose `input_path`, `target_language` or `total_chunks`
differs from the current job makes the synchronous run identical to a run
with no checkpoint: it starts at chunk 0 with empty accumulators
(`resumed = false`) and no error is raised (the run is total by
construction). -/
theorem invalid_checkpoint_starts_fresh (chunks : List Chunk)
    (cp : CheckpointData) (inputPath targetLanguage : String)
    (oracle : String → Option String → String)
    (hmis : cp.input_path ≠ inputPath ∨ cp.target_language ≠ targetLanguage ∨
      cp.total_chunks ≠ (chunks.length : Int)) :
    (∀ j : Json, decodeCheckpoint j = none → loadCheckpoint (some j) = none) ∧
      translate_file chunks inputPath targetLanguage (some cp) oracle =
        translate_file chunks inputPath targetLanguage none oracle ∧
      (translate_file chunks inputPath targetLanguage none oracle).resumed = false ∧
      (translate_file chunks inputPath targetLanguage none oracle).translated_segments =
        (processChunks oracle [] chunks).1 := by
  have hres : syncResume chunks inputPath targetLanguage (some cp) = none := by
    have hcond : ¬(cp.engine_type = "real-time" ∧ cp.input_path = inputPath ∧
        cp.target_language = targetLanguage ∧
        cp.total_chunks = (chunks.length : Int)) := by
      rintro ⟨-, h1, h2, h3⟩
      rcases hmis with h | h | h <;> exact h (by assumption)
    show (if cp.engine_type = "real-time" ∧ cp.input_path = inputPath ∧
        cp.target_language = targetLanguage ∧
        cp.total_chunks = (chunks.length : Int) then some cp else none) = none
    exact if_neg hcond
  refine ⟨fun j hj => hj, ?_, rfl, rfl⟩
  unfold translate_file
  rw [hres]
  rfl

/-- Witness for C6 at a concrete mismatched checkpoint (stale
`total_chunks = 2` against a 1-chunk job) and a corrupt content. -/
theorem invalid_checkpoint_starts_fresh_witness :
    loadCheckpoint (some (.str "garbage")) = none ∧
      (translate_file
        [{ segments := [{ text := "hi" }], token_count := 2,
           chunk_index := 0, total_chunks := 1 }] "in.md" "fr"
        (some { engine_type := "real-time", input_path := "in.md",
                output_path := "out.md", target_language := "fr",
                source_language := none, chunk_size := 10,
                last_completed_chunk := 0, total_chunks := 2,
                translated_segments := [{ text := "salut" }],
                context_history := ["salut"] })
        (fun _ _ => "X")).resumed = false := by
  have h := invalid_checkpoint_starts_fresh
    [{ segments := [{ text := "hi" }], token_count := 2,
       chunk_index := 0, total_chunks := 1 }]
    { engine_type := "real-time", input_path := "in.md",
      output_path := "out.md", target_language := "fr",
      source_language := none, chunk_size := 10,
      last_completed_chunk := 0, total_chunks := 2,
      translated_segments := [{ text := "salut" }],
      context_history := ["salut"] }
    "in.md" "fr" (fun _ _ => "X") (Or.inr (Or.inr (by decide)))
  exact ⟨h.1 _ rfl, by rw [h.2.1]; exact h.2.2.1⟩

/-! ## Claim C8 — positional reassembly with the fixed separator -/

theorem reconstructSegments_length (segs : List TextSegment)
    (parts : List String) :
    (reconstructSegments segs parts).length = segs.length := by
  induction segs generalizing parts with
  | nil => rfl
  | cons s rest ih =>
    unfold reconstructSegments
    by_cases h : s.skip_translation <;> simp [h, ih]

theorem getD_tail {α : Type} (l : List α) (n : Nat) (d : α) :
    l.tail.getD n d = l.getD (n + 1) d := by
  cases l <;> simp [List.getD]

theorem headD_eq_getD_zero {α : Type} (l : List α) (d : α) :
    l.headD d = l.getD 0 d := by
  cases l <;> simp

theorem reconstructSegments_spec (segs : List TextSegment)
    (parts : List String) (i : Nat) (hi : i < segs.length) :
    ((segs.getD i default).skip_translation = true →
      (reconstructSegments segs parts).getD i default = segs.getD i default) ∧
    ((segs.getD i default).skip_translation = false →
      ((reconstructSegments segs parts).getD i default).text =
        (parts.getD (transIdxBefore segs i) "")) := by
  induction segs generalizing parts i with
  | nil => simp at hi
  | cons s rest ih =>
    cases i with
    | zero =>
      by_cases h : s.skip_translation
      · constructor
        · intro _
          unfold reconstructSegments
          rw [if_pos h]
          simp
        · intro hc
          rw [List.getD_cons_zero] at hc
          exact absurd hc (by simp [h])
      · constructor
        · intro hc
          rw [List.getD_cons_zero] at hc
          exact absurd hc h
        · intro _
          unfold reconstructSegments
          rw [if_neg h]
          simp only [List.getD_cons_zero]
          rw [headD_eq_getD_zero]
          simp [transIdxBefore]
    | succ j =>
      have hj : j < rest.length := by simpa using hi
      unfold reconstructSegments
      by_cases h : s.skip_translation
      · simp only [if_pos h, List.getD_cons_succ]
        have := ih parts j hj
        have ht : transIdxBefore (s :: rest) (j + 1) = transIdxBefore rest j := by
          simp [transIdxBefore, List.take_succ_cons, h]
        rw [ht]
        exact this
      · simp only [if_neg h, List.getD_cons_succ]
        have := ih parts.tail j hj
        have ht : transIdxBefore (s :: rest) (j + 1) = transIdxBefore rest j + 1 := by
          simp [transIdxBefore, List.take_succ_cons, h]
        rw [ht, ← getD_tail parts (transIdxBefore rest j) ""]
        exact this

/-- C8: in both orchestrators, a chunk with at least one translatable
segment is rebuilt by splitting the returned text on the same `"\n\n"`
separator used to combine the request and distributing the parts
positionally; the i-th translatable segment receives the i-th part, or `""`
when the capability returned fewer parts; every skip segment is kept
unchanged at its original position.  Conjuncts: (1) the synchronous
`_translate_chunk` and (2) the batch reassembly both reduce to
`reconstructSegments` over the split of the returned text; (3) the
positional specification of `reconstructSegments` itself. -/
theorem reassembly_positional (chunk : Chunk) (context : Option String)
    (oracle : String → Option String → String)
    (translations : String → Option String) (i : Nat) (c : Chunk) (t : String)
    (hne : (translatableOf chunk).isEmpty = false)
    (hlook : translations (chunkCustomId i) = some t) :
    (translate_chunk chunk context oracle).1 =
        reconstructSegments chunk.segments
          (pySplitOnSep (oracle (combinedText chunk) context)) ∧
      assembleChunk translations i c =
        reconstructSegments c.segments (pySplitOnSep t) ∧
      ∀ (segs : List TextSegment) (parts : List String) (j : Nat),
        j < segs.length →
        (reconstructSegments segs parts).length = segs.length ∧
        ((segs.getD j default).skip_translation = true →
          (reconstructSegments segs parts).getD j default = segs.getD j default) ∧
        ((segs.getD j default).skip_translation = false →
          ((reconstructSegments segs parts).getD j default).text =
            (parts.getD (transIdxBefore segs j) "")) := by
  refine ⟨?_, ?_, ?_⟩
  · unfold translate_chunk
    rw [if_neg (by simp [hne])]
    rfl
  · unfold assembleChunk
    rw [hlook]
  · intro segs parts j hj
    exact ⟨reconstructSegments_length segs parts,
      (reconstructSegments_spec segs parts j hj).1,
      (reconstructSegments_spec segs parts j hj).2⟩

/-- Witness for C8: a chunk `[skip, translatable, translatable]` where the
capability returns a single part — the first translatable segment gets the
part, the second gets `""`, the skip segment is untouched. -/
theorem reassembly_positional_witness :
    (translate_chunk
        { segments := [{ text := "code", skip_translation := true },
            { text := "a" }, { text := "b" }], token_count := 2,
          chunk_index := 0, total_chunks := 1 }
        none (fun _ _ => "OUT")).1 =
      reconstructSegments
        [{ text := "code", skip_translation := true }, { text := "a" },
         { text := "b" }] (pySplitOnSep "OUT") := by
  exact (reassembly_positional
    { segments := [{ text := "code", skip_translation := true },
        { text := "a" }, { text := "b" }], token_count := 2,
      chunk_index := 0, total_chunks := 1 }
    none (fun _ _ => "OUT") (fun _ => some "OUT") 0
    { segments := [{ text := "a" }], token_count := 1,
      chunk_index := 0, total_chunks := 1 }
    "OUT" rfl rfl).1

/-! ## Claim C10 — checkpoint save/load round-trip -/

theorem serialize_segment_roundtrip (s : TextSegment) :
    deserialize_segment (serialize_segment s) = some s := rfl

theorem segList_roundtrip (l : List TextSegment) :
    decodeSegList (some (.arr (l.map serialize_segment))) = some l := by
  induction l with
  | nil => rfl
  | cons s rest ih =>
    simp only [decodeSegList, List.map_cons, decodeList,
      serialize_segment_roundtrip] at *
    rw [ih]

theorem strList_roundtrip (l : List String) :
    decodeStrList (some (.arr (l.map .str))) = some l := by
  induction l with
  | nil => rfl
  | cons s rest ih =>
    simp only [decodeStrList, List.map_cons, decodeList] at *
    rw [ih]

/-- C10: serializing a checkpoint record as `save` does and parsing it back
as `load` does returns the original record. -/
theorem checkpoint_roundtrip (cp : CheckpointData) :
    loadCheckpoint (some (encodeCheckpoint cp)) = some cp := by
  obtain ⟨et, ip, op, tl, sl, cs, lc, tc, ts, ch, bi, bs, cm⟩ := cp
  show decodeCheckpoint (encodeCheckpoint _) = _
  cases sl <;> cases bi <;> cases bs <;> cases cm <;>
    simp [decodeCheckpoint, encodeCheckpoint, encodeOptStr, encodeOptObj,
      lookupJson, checkpointFieldNames, decodeStr, decodeInt, decodeOptStr,
      decodeOptStrDefault, decodeOptObjDefault, segList_roundtrip,
      strList_roundtrip]


/-! ## Claim C3 — at-most-once batch submission -/

theorem pollLoop_no_createBatch (mkPollCp : Int → CheckpointData)
    (batchId : String) (statuses : Nat → BatchStatus) (n fuel : Nat)
    (reqs : List BatchRequest) :
    BatchEvent.createBatch reqs ∉ (pollLoop mkPollCp batchId statuses n fuel).2 := by
  induction fuel generalizing n with
  | zero =>
    unfold pollLoop
    split <;> simp [pollIterEvents]
  | succ fuel ih =>
    unfold pollLoop
    split
    · simp [pollIterEvents]
    · show BatchEvent.createBatch reqs ∉
        pollIterEvents mkPollCp batchId (statuses n) ++
          (pollLoop mkPollCp batchId statuses (n + 1) fuel).2
      intro hmem
      rcases List.mem_append.mp hmem with h | h
      · simp [pollIterEvents] at h
      · exact ih (n + 1) h

theorem pollLoop_head (mkPollCp : Int → CheckpointData) (batchId : String)
    (statuses : Nat → BatchStatus) (n fuel : Nat) :
    (pollLoop mkPollCp batchId statuses n fuel).2.head? =
      some (.getBatchStatus batchId) := by
  cases fuel <;> (unfold pollLoop; split <;> rfl)

theorem batch_run_resumed_structure (segments : List TextSegment)
    (tc : String → Int) (maxTokens : Int)
    (inputPath outputPath targetLanguage : String)
    (sourceLanguage : Option String) (checkpoint : Option CheckpointData)
    (newBatchId : String) (statuses : Nat → BatchStatus)
    (results : List BatchResult) (fuel : Nat) (b : String)
    (hres : batchResume (chunk_segments maxTokens segments tc) inputPath
      targetLanguage checkpoint = some b)
    (hreq : (buildBatchRequests (chunk_segments maxTokens segments tc)
      targetLanguage sourceLanguage).isEmpty = false) :
    ∃ tail,
      (translate_file_batch segments tc maxTokens inputPath outputPath
          targetLanguage sourceLanguage checkpoint newBatchId statuses results
          fuel).events =
        (pollLoop
          (fun completed => mkBatchCp inputPath outputPath targetLanguage
            sourceLanguage maxTokens "polling" (completed - 1)
            ((chunk_segments maxTokens segments tc).length : Int) b
            (chunkMappingSerialized (chunk_segments maxTokens segments tc)))
          b statuses 0 fuel).2 ++ tail ∧
        ∀ reqs, BatchEvent.createBatch reqs ∉ tail := by
  unfold translate_file_batch
  rw [if_neg (by rw [hreq]; exact Bool.false_ne_true)]
  simp only [hres, Option.getD_some, Option.isSome_some]
  split
  · refine ⟨_, rfl, ?_⟩
    intro reqs hmem
    simp only [List.mem_cons, List.not_mem_nil, or_false] at hmem
    rcases hmem with h | h | h | h <;> exact BatchEvent.noConfusion h
  · exact ⟨[], (List.append_nil _).symm, by simp⟩

/-- C3 counterexample: the claim fails for a present-but-empty `batch_id`.
`emptyBatchIdCp` has `mode = batch`, `input_path`, `target_language` and
`total_chunks` matching the job `("in.md", "fr")` over `[segHi]`, and a
non-absent `batch_id = some ""`; yet the run's very first event is the
`create_batch` submission, because `batch_engine.py` line 122 tests
`checkpoint.batch_id` for truthiness and the empty string is falsy. -/
theorem batch_empty_batch_id_resubmits :
    emptyBatchIdCp.engine_type = "batch" ∧
      emptyBatchIdCp.input_path = "in.md" ∧
      emptyBatchIdCp.target_language = "fr" ∧
      emptyBatchIdCp.total_chunks =
        ((chunk_segments 10 [segHi] strLenTc).length : Int) ∧
      emptyBatchIdCp.batch_id = some "" ∧
      (translate_file_batch [segHi] strLenTc 10 "in.md" "out.md" "fr" none
          (some emptyBatchIdCp) "B-1" statusesDone [] 1).events.head? =
        some (.createBatch
          (buildBatchRequests (chunk_segments 10 [segHi] strLenTc) "fr" none)) :=
  ⟨rfl, rfl, rfl, rfl, rfl, rfl⟩

/-- C3 (amended): if the loaded checkpoint has `mode = batch`, matching
`input_path`, `target_language` and `total_chunks`, and a non-absent,
**non-empty** `batch_id`, then `create_batch` is never invoked and the run
proceeds directly to polling with the recorded id: whenever the job has any
translatable content, the first external event is `get_batch_status` on
that id. -/
theorem batch_resume_no_resubmission (segments : List TextSegment)
    (tc : String → Int) (maxTokens : Int)
    (inputPath outputPath targetLanguage : String)
    (sourceLanguage : Option String) (cp : CheckpointData)
    (newBatchId : String) (statuses : Nat → BatchStatus)
    (results : List BatchResult) (fuel : Nat) (b : String)
    (hmode : cp.engine_type = "batch") (hin : cp.input_path = inputPath)
    (htgt : cp.target_language = targetLanguage)
    (htot : cp.total_chunks = ((chunk_segments maxTokens segments tc).length : Int))
    (hbid : cp.batch_id = some b) (hb : b ≠ "") :
    (∀ reqs, BatchEvent.createBatch reqs ∉
        (translate_file_batch segments tc maxTokens inputPath outputPath
          targetLanguage sourceLanguage (some cp) newBatchId statuses results
          fuel).events) ∧
      ((buildBatchRequests (chunk_segments maxTokens segments tc)
          targetLanguage sourceLanguage).isEmpty = false →
        (translate_file_batch segments tc maxTokens inputPath outputPath
          targetLanguage sourceLanguage (some cp) newBatchId statuses results
          fuel).events.head? = some (.getBatchStatus b)) := by
  have hres : batchResume (chunk_segments maxTokens segments tc) inputPath
      targetLanguage (some cp) = some b := by
    show (if cp.engine_type = "batch" && cp.input_path = inputPath &&
        cp.target_language = targetLanguage &&
        cp.total_chunks = ((chunk_segments maxTokens segments tc).length : Int) &&
        truthyOptStr cp.batch_id then cp.batch_id else none) = some b
    rw [if_pos (by simp [hmode, hin, htgt, htot, hbid, truthyOptStr, hb]), hbid]
  by_cases hreq : (buildBatchRequests (chunk_segments maxTokens segments tc)
      targetLanguage sourceLanguage).isEmpty
  · constructor
    · intro reqs hmem
      unfold translate_file_batch at hmem
      rw [if_pos hreq] at hmem
      simp only [List.mem_singleton] at hmem
      exact BatchEvent.noConfusion hmem
    · intro hne
      rw [hreq] at hne
      exact absurd hne (by simp)
  · obtain ⟨tail, hev, htail⟩ := batch_run_resumed_structure segments tc
      maxTokens inputPath outputPath targetLanguage sourceLanguage (some cp)
      newBatchId statuses results fuel b hres (by simpa using hreq)
    constructor
    · intro reqs hmem
      rw [hev] at hmem
      rcases List.mem_append.mp hmem with h | h
      · exact pollLoop_no_createBatch _ _ _ _ _ _ h
      · exact htail reqs h
    · intro _
      rw [hev]
      have hhd := pollLoop_head
        (fun completed => mkBatchCp inputPath outputPath targetLanguage
          sourceLanguage maxTokens "polling" (completed - 1)
          ((chunk_segments maxTokens segments tc).length : Int) b
          (chunkMappingSerialized (chunk_segments maxTokens segments tc)))
        b statuses 0 fuel
      cases hp : (pollLoop
          (fun completed => mkBatchCp inputPath outputPath targetLanguage
            sourceLanguage maxTokens "polling" (completed - 1)
            ((chunk_segments maxTokens segments tc).length : Int) b
            (chunkMappingSerialized (chunk_segments maxTokens segments tc)))
          b statuses 0 fuel).2 with
      | nil => rw [hp] at hhd; exact absurd hhd (by simp)
      | cons e t =>
        rw [hp] at hhd
        simp only [List.head?_cons, Option.some.injEq] at hhd
        rw [List.cons_append, List.head?_cons, hhd]

/-- Witness for C3 (amended) at a concrete resumable job. -/
theorem batch_resume_no_resubmission_witness :
    (translate_file_batch [segHi] strLenTc 10 "in.md" "out.md" "fr" none
        (some { engine_type := "batch", input_path := "in.md",
                output_path := "out.md", target_language := "fr",
                source_language := none, chunk_size := 10,
                last_completed_chunk := -1, total_chunks := 1,
                translated_segments := [], context_history := [],
                batch_id := some "B-7", batch_stage := some "submitted",
                chunk_mapping := none })
        "B-new" statusesDone [] 1).events.head? =
      some (.getBatchStatus "B-7") :=
  (batch_resume_no_resubmission [segHi] strLenTc 10 "in.md" "out.md" "fr"
    none
    { engine_type := "batch", input_path := "in.md", output_path := "out.md",
      target_language := "fr", source_language := none, chunk_size := 10,
      last_completed_chunk := -1, total_chunks := 1,
      translated_segments := [], context_history := [],
      batch_id := some "B-7", batch_stage := some "submitted",
      chunk_mapping := none }
    "B-new" statusesDone [] 1 "B-7" rfl rfl rfl rfl rfl (by decide)).2 rfl

/-! ## Claim C5 — when the request mapping is checkpointed -/

/-- C5 counterexample: in a fresh batch run (no checkpoint) with
translatable content, no checkpoint save of any kind happens before the
`create_batch` submission — the submission is the very first event, and the
first checkpoint save (which does carry the full correlation-id mapping)
happens right after it, at `batch_engine.py` lines 139-156 ("Save checkpoint
immediately after getting batch_id").  This refutes the claim that the
mapping is durably persisted before the submit call. -/
theorem batch_mapping_saved_after_submit :
    ((translate_file_batch [segHi] strLenTc 10 "in.md" "out.md" "fr" none
        none "B-1" statusesDone [] 1).events.takeWhile
          (fun e => !isCreateBatchEvent e)).filter isSaveEvent = [] ∧
      (translate_file_batch [segHi] strLenTc 10 "in.md" "out.md" "fr" none
        none "B-1" statusesDone [] 1).events.any isCreateBatchEvent = true ∧
      (translate_file_batch [segHi] strLenTc 10 "in.md" "out.md" "fr" none
          none "B-1" statusesDone [] 1).events.getD 1 .cleanCheckpoint =
        .saveCheckpoint (mkBatchCp "in.md" "out.md" "fr" none 10 "submitted"
          (-1) 1 "B-1" (chunkMappingSerialized (chunk_segments 10 [segHi] strLenTc))) :=
  ⟨rfl, rfl, rfl⟩

/-- C5 (amended): in every batch run that submits a new batch — any run
with translatable content whose checkpoint validation does not yield a
reusable batch id (no checkpoint at all, or a checkpoint with the wrong
mode, mismatched `input_path`/`target_language`/`total_chunks`, or a falsy
`batch_id`) — the full correlation-id → {index, original segments} mapping
is persisted in the stage-`submitted` checkpoint written immediately
**after** the submit call returns and before any polling: the event trace
starts with `create_batch` followed directly by that save, whose
`chunk_mapping` is the full serialized mapping. -/
theorem batch_submit_then_mapping_checkpoint (segments : List TextSegment)
    (tc : String → Int) (maxTokens : Int)
    (inputPath outputPath targetLanguage : String)
    (sourceLanguage : Option String) (checkpoint : Option CheckpointData)
    (newBatchId : String)
    (statuses : Nat → BatchStatus) (results : List BatchResult) (fuel : Nat)
    (hres : batchResume (chunk_segments maxTokens segments tc) inputPath
      targetLanguage checkpoint = none)
    (hreq : (buildBatchRequests (chunk_segments maxTokens segments tc)
      targetLanguage sourceLanguage).isEmpty = false) :
    (∃ rest,
      (translate_file_batch segments tc maxTokens inputPath outputPath
          targetLanguage sourceLanguage checkpoint newBatchId statuses results
          fuel).events =
        .createBatch (buildBatchRequests (chunk_segments maxTokens segments tc)
            targetLanguage sourceLanguage) ::
          .saveCheckpoint (mkBatchCp inputPath outputPath targetLanguage
            sourceLanguage maxTokens "submitted" (-1)
            ((chunk_segments maxTokens segments tc).length : Int) newBatchId
            (chunkMappingSerialized (chunk_segments maxTokens segments tc))) ::
          rest) ∧
      (mkBatchCp inputPath outputPath targetLanguage sourceLanguage maxTokens
          "submitted" (-1) ((chunk_segments maxTokens segments tc).length : Int)
          newBatchId
          (chunkMappingSerialized (chunk_segments maxTokens segments tc))).chunk_mapping =
        some (chunkMappingSerialized (chunk_segments maxTokens segments tc)) := by
  refine ⟨?_, rfl⟩
  unfold translate_file_batch
  rw [if_neg (by rw [hreq]; exact Bool.false_ne_true)]
  simp only [hres, Option.getD_none, Option.isSome_none]
  split
  · exact ⟨_, rfl⟩
  · exact ⟨_, rfl⟩

/-- Witness for C5 (amended) at a concrete submitting run that did load a
checkpoint (one with a falsy `batch_id`, hence no resume): the second event
is the `submitted` checkpoint save carrying the full mapping. -/
theorem batch_submit_then_mapping_checkpoint_witness :
    (translate_file_batch [segHi] strLenTc 10 "in.md" "out.md" "fr" none
        (some emptyBatchIdCp) "B-1" statusesDone [] 1).events.getD 1
        .cleanCheckpoint =
      .saveCheckpoint (mkBatchCp "in.md" "out.md" "fr" none 10 "submitted"
        (-1) 1 "B-1"
        (chunkMappingSerialized (chunk_segments 10 [segHi] strLenTc))) := by
  obtain ⟨rest, hev⟩ := (batch_submit_then_mapping_checkpoint [segHi]
    strLenTc 10 "in.md" "out.md" "fr" none (some emptyBatchIdCp) "B-1"
    statusesDone [] 1 rfl rfl).1
  rw [hev]
  rfl

/-! ## Claim C9 — partial batch failure tolerated -/

theorem pollLoop_completed (mkPollCp : Int → CheckpointData)
    (batchId : String) (statuses : Nat → BatchStatus) (n fuel : Nat)
    (hc : (statuses n).status = "completed") :
    (pollLoop mkPollCp batchId statuses n fuel).1 = true := by
  cases fuel <;> (unfold pollLoop; rw [if_pos hc])

/-- C9 (amended): in batch assembly, a chunk none of whose results carries a
non-empty translated text — in particular a chunk whose correlation id is
missing from the result set, or whose results are error-only — keeps its
original segments unchanged; a chunk whose id maps to a non-empty translated
text is rebuilt from that text; and the job still completes (the run
produces an output for any result list once the external status reports
completion). -/
theorem batch_partial_failure_tolerated (results : List BatchResult)
    (segments : List TextSegment) (tc : String → Int) (maxTokens : Int)
    (inputPath outputPath targetLanguage : String)
    (sourceLanguage : Option String) (checkpoint : Option CheckpointData)
    (newBatchId : String) (statuses : Nat → BatchStatus) (fuel : Nat) :
    (∀ i c, (∀ r ∈ results, r.custom_id = chunkCustomId i →
        truthyOptStr r.translated_text = false) →
      assembleChunk (translationsOf results) i c = c.segments) ∧
      (∀ i c t, translationsOf results (chunkCustomId i) = some t →
        assembleChunk (translationsOf results) i c =
          reconstructSegments c.segments (pySplitOnSep t)) ∧
      ((statuses 0).status = "completed" →
        (translate_file_batch segments tc maxTokens inputPath outputPath
          targetLanguage sourceLanguage checkpoint newBatchId statuses results
          fuel).output.isSome = true) := by
  refine ⟨?_, ?_, ?_⟩
  · intro i c hfail
    have hfilter : results.filter (fun r => r.custom_id = chunkCustomId i &&
        truthyOptStr r.translated_text) = [] := by
      rw [List.filter_eq_nil_iff]
      intro r hr
      by_cases hid : r.custom_id = chunkCustomId i
      · simp [hid, hfail r hr hid]
      · simp [hid]
    unfold assembleChunk translationsOf
    rw [hfilter]
    rfl
  · intro i c t hlook
    unfold assembleChunk
    rw [hlook]
  · intro hcomp
    unfold translate_file_batch
    by_cases hreq : (buildBatchRequests (chunk_segments maxTokens segments tc)
        targetLanguage sourceLanguage).isEmpty
    · rw [if_pos hreq]
      rfl
    · rw [if_neg hreq]
      rw [if_pos (pollLoop_completed _ _ statuses 0 fuel hcomp)]
      rfl

/-- Witness for C9 (amended): a 1-chunk job whose sole result is error-only
passes the original segments through. -/
theorem batch_partial_failure_tolerated_witness :
    assembleChunk (translationsOf
        [{ custom_id := "chunk-0", translated_text := none,
           error := some "boom" }]) 0
      { segments := [segHi], token_count := 2, chunk_index := 0,
        total_chunks := 1 } = [segHi] := by
  exact (batch_partial_failure_tolerated
    [{ custom_id := "chunk-0", translated_text := none, error := some "boom" }]
    [segHi] strLenTc 10 "in.md" "out.md" "fr" none none "B-1" statusesDone
    1).1 0
    { segments := [segHi], token_count := 2, chunk_index := 0,
      total_chunks := 1 }
    (by intro r hr hid; simp only [List.mem_singleton] at hr; rw [hr]; rfl)

/-- C9 counterexample: the claim as stated fails for a result that carries
**both** an error and a non-empty translated text (the repository's vendor
adapters can produce such results, setting both fields independently): the
code checks `if result.translated_text:` first, so the chunk is rebuilt from
the text instead of being passed through unchanged. -/
theorem batch_errored_result_with_text_not_passthrough :
    translationsOf
        [{ custom_id := "chunk-0", translated_text := some "X",
           error := some "boom" }] "chunk-0" = some "X" ∧
      assembleChunk (translationsOf
          [{ custom_id := "chunk-0", translated_text := some "X",
             error := some "boom" }]) 0
        { segments := [segHi], token_count := 2, chunk_index := 0,
          total_chunks := 1 } ≠ [segHi] := by
  refine ⟨rfl, ?_⟩
  intro h
  have h1 : (assembleChunk (translationsOf
      [{ custom_id := "chunk-0", translated_text := some "X",
         error := some "boom" }]) 0
      { segments := [segHi], token_count := 2, chunk_index := 0,
        total_chunks := 1 }).map TextSegment.text = ["X"] := rfl
  rw [h] at h1
  exact absurd h1 (by decide)

/-! ## Claims C1 and C4 — chunking: losslessness and the token budget -/

theorem sbf_tail (a : Char) (t : List Char)
    (h : sentenceBreakFree (a :: t) = true) : sentenceBreakFree t = true := by
  cases t with
  | nil => rfl
  | cons b t =>
    unfold sentenceBreakFree at h
    exact (Bool.and_eq_true_iff.mp h).2

theorem sbf_append_left (xs ys : List Char)
    (h : sentenceBreakFree (xs ++ ys) = true) :
    sentenceBreakFree xs = true := by
  induction xs with
  | nil => rfl
  | cons a xs ih =>
    cases xs with
    | nil => rfl
    | cons b t =>
      unfold sentenceBreakFree at h ⊢
      rw [List.cons_append, List.cons_append] at h
      have h' := Bool.and_eq_true_iff.mp h
      exact Bool.and_eq_true_iff.mpr ⟨h'.1, ih (by rw [List.cons_append]; exact h'.2)⟩

theorem sbf_snoc_ok (xs : List Char) (b r : Char)
    (h1 : sentenceBreakFree (xs ++ [b]) = true) (h2 : pairOK b r = true) :
    sentenceBreakFree (xs ++ [b, r]) = true := by
  induction xs with
  | nil =>
    unfold sentenceBreakFree
    rw [List.nil_append]
    exact Bool.and_eq_true_iff.mpr ⟨h2, rfl⟩
  | cons a xs ih =>
    cases xs with
    | nil =>
      unfold sentenceBreakFree at h1 ⊢
      have h' := Bool.and_eq_true_iff.mp h1
      exact Bool.and_eq_true_iff.mpr ⟨h'.1,
        Bool.and_eq_true_iff.mpr ⟨h2, rfl⟩⟩
    | cons x t =>
      rw [List.cons_append, List.cons_append] at h1 ⊢
      unfold sentenceBreakFree at h1 ⊢
      have h' := Bool.and_eq_true_iff.mp h1
      refine Bool.and_eq_true_iff.mpr ⟨h'.1, ?_⟩
      have := ih (by rw [List.cons_append]; exact h'.2)
      rw [List.cons_append] at this
      exact this

theorem splitSentencesAux_of_breakFree (l : List Char) (acc : List Char)
    (h : sentenceBreakFree l = true) :
    splitSentencesAux l (some acc) = [acc.reverse ++ l] := by
  induction l generalizing acc with
  | nil => simp [splitSentencesAux]
  | cons c rest ih =>
    have hcond : (isSentenceEnd c && headIsSpace rest) = false := by
      cases rest with
      | nil => simp [headIsSpace]
      | cons r t =>
        unfold sentenceBreakFree at h
        have hp := (Bool.and_eq_true_iff.mp h).1
        unfold pairOK at hp
        simp only [headIsSpace]
        rcases (by simpa using hp : isSentenceEnd c = false ∨ isSpace r = false)
          with h1 | h1 <;> simp [h1]
    unfold splitSentencesAux
    rw [hcond]
    simp only [Bool.false_eq_true, if_false]
    rw [ih (c :: acc) (sbf_tail c rest h)]
    simp

theorem splitSentences_of_breakFree (s : String)
    (h : sentenceBreakFree s.data = true) : splitSentences s = [s] := by
  unfold splitSentences
  have : splitSentencesAux s.data (some []) = [[] ++ s.data] :=
    splitSentencesAux_of_breakFree s.data [] h
  rw [this]
  simp only [List.nil_append, List.map_cons, List.map_nil]

theorem sbf_singleton (c : Char) : sentenceBreakFree [c] = true := rfl

theorem splitSentencesAux_breakFree (cs : List Char) :
    ∀ (acc : Option (List Char)),
      (∀ a, acc = some a → sentenceBreakFree (a.reverse ++ cs.take 1) = true) →
      ∀ p ∈ splitSentencesAux cs acc, sentenceBreakFree p = true := by
  induction cs with
  | nil =>
    intro acc hinv p hp
    cases acc with
    | none =>
      simp only [splitSentencesAux, List.mem_singleton] at hp
      subst hp
      rfl
    | some a =>
      simp only [splitSentencesAux, List.mem_singleton] at hp
      subst hp
      simpa using hinv a rfl
  | cons c rest ih =>
    intro acc hinv p hp
    cases acc with
    | none =>
      unfold splitSentencesAux at hp
      by_cases hsp : isSpace c
      · rw [if_pos hsp] at hp
        exact ih none (by intro a ha; cases ha) p hp
      · rw [if_neg hsp] at hp
        by_cases hcut : (isSentenceEnd c && headIsSpace rest) = true
        · rw [if_pos hcut] at hp
          rcases List.mem_cons.mp hp with h | h
          · subst h; exact sbf_singleton c
          · exact ih none (by intro a ha; cases ha) p h
        · rw [if_neg hcut] at hp
          refine ih (some [c]) ?_ p hp
          intro a ha
          injection ha with ha
          subst ha
          cases rest with
          | nil => exact sbf_singleton c
          | cons r t =>
            show sentenceBreakFree [c, r] = true
            unfold sentenceBreakFree pairOK
            have : (isSentenceEnd c && isSpace r) = false := by
              simpa [headIsSpace] using hcut
            simp [this, sentenceBreakFree]
    | some a =>
      unfold splitSentencesAux at hp
      by_cases hcut : (isSentenceEnd c && headIsSpace rest) = true
      · rw [if_pos hcut] at hp
        rcases List.mem_cons.mp hp with h | h
        · subst h
          have := hinv a rfl
          simpa using this
        · exact ih none (by intro x hx; cases hx) p h
      · rw [if_neg hcut] at hp
        refine ih (some (c :: a)) ?_ p hp
        intro x hx
        injection hx with hx
        subst hx
        have hbase := hinv a rfl
        simp only [List.take_cons, List.take_zero] at hbase
        cases rest with
        | nil =>
          simp only [List.reverse_cons, List.take_nil, List.append_nil]
          exact sbf_append_left _ _ (by simpa using hbase)
        | cons r t =>
          show sentenceBreakFree ((c :: a).reverse ++ [r]) = true
          rw [List.reverse_cons]
          have hpair : pairOK c r = true := by
            unfold pairOK
            have : (isSentenceEnd c && isSpace r) = false := by
              simpa [headIsSpace] using hcut
            simp [this]
          rw [List.append_assoc]
          exact sbf_snoc_ok a.reverse c r (by simpa using hbase) hpair

theorem splitSentences_breakFree (s : String) (p : String)
    (hp : p ∈ splitSentences s) : sentenceBreakFree p.data = true := by
  unfold splitSentences at hp
  rcases List.mem_map.mp hp with ⟨l, hl, rfl⟩
  refine splitSentencesAux_breakFree s.data (some []) ?_ l hl
  intro a ha
  injection ha with ha
  subst ha
  have ht : sentenceBreakFree (s.data.take 1) = true := by
    cases s.data with
    | nil => rfl
    | cons x t => rw [List.take_succ_cons, List.take_zero]; rfl
  simpa using ht

theorem sbf_dropWhile (p : Char → Bool) (l : List Char)
    (h : sentenceBreakFree l = true) :
    sentenceBreakFree (l.dropWhile p) = true := by
  induction l with
  | nil => rfl
  | cons a t ih =>
    rw [List.dropWhile_cons]
    split
    · exact ih (sbf_tail a t h)
    · exact h

theorem pyStrip_data (s : String) :
    (pyStrip s).data =
      ((s.data.dropWhile isSpace).reverse.dropWhile isSpace).reverse := rfl

theorem strip_decomp (p : Char → Bool) (l : List Char) :
    (l.reverse.dropWhile p).reverse ++ (l.reverse.takeWhile p).reverse = l := by
  rw [← List.reverse_append, List.takeWhile_append_dropWhile, List.reverse_reverse]

theorem sbf_pyStrip (s : String) (h : sentenceBreakFree s.data = true) :
    sentenceBreakFree (pyStrip s).data = true := by
  rw [pyStrip_data]
  have h1 : sentenceBreakFree (s.data.dropWhile isSpace) = true :=
    sbf_dropWhile isSpace s.data h
  have h2 := strip_decomp isSpace (s.data.dropWhile isSpace)
  exact sbf_append_left _ _ (h2 ▸ h1)

theorem dropWhile_head_not (p : Char → Bool) (l : List Char) :
    l.dropWhile p = [] ∨
      ∃ a t, l.dropWhile p = a :: t ∧ p a = false := by
  induction l with
  | nil => exact Or.inl rfl
  | cons a t ih =>
    rw [List.dropWhile_cons]
    split
    · exact ih
    · exact Or.inr ⟨a, t, rfl, by simp_all⟩

theorem dropWhile_of_dropWhile (p : Char → Bool) (l : List Char) :
    (l.dropWhile p).dropWhile p = l.dropWhile p := by
  rcases dropWhile_head_not p l with h | ⟨a, t, h, hpa⟩
  · rw [h]; rfl
  · rw [h, List.dropWhile_cons, hpa]
    simp

theorem pyStrip_idempotent (s : String) : pyStrip (pyStrip s) = pyStrip s := by
  cases s with
  | mk d =>
    show pyStrip ⟨((d.dropWhile isSpace).reverse.dropWhile isSpace).reverse⟩ = _
    unfold pyStrip
    congr 1
    show ((((d.dropWhile isSpace).reverse.dropWhile
        isSpace).reverse.dropWhile isSpace).reverse.dropWhile isSpace).reverse =
      ((d.dropWhile isSpace).reverse.dropWhile isSpace).reverse
    have hW : ((d.dropWhile isSpace).reverse.dropWhile isSpace).dropWhile isSpace =
        (d.dropWhile isSpace).reverse.dropWhile isSpace :=
      dropWhile_of_dropWhile isSpace (d.dropWhile isSpace).reverse
    have hR : (((d.dropWhile isSpace).reverse.dropWhile isSpace).reverse).dropWhile
        isSpace = ((d.dropWhile isSpace).reverse.dropWhile isSpace).reverse := by
      rcases dropWhile_head_not isSpace d with h | ⟨a, t, h, hpa⟩
      · rw [h]
        simp
      · rw [h]
        rcases hpre : (((a :: t).reverse.dropWhile isSpace).reverse) with _ | ⟨x, xs⟩
        · rfl
        · have hx : x = a := by
            have hd := strip_decomp isSpace (a :: t)
            rw [hpre] at hd
            have := congrArg (fun l => l.headD ' ') hd
            simpa using this
          rw [List.dropWhile_cons]
          rw [hx, hpa]
          simp
    rw [hR, List.reverse_reverse, hW]

theorem mkSubSegment_spec (maxTokens : Int) (tc : String → Int)
    (seg : TextSegment) (cur : String)
    (hq : cur ∈ splitSentences seg.text ∨
      (tc cur ≤ maxTokens ∧ pyStrip cur = cur)) :
    tc (mkSubSegment seg cur).text ≤ maxTokens ∨
      splitSentences (mkSubSegment seg cur).text =
        [(mkSubSegment seg cur).text] := by
  have htext : (mkSubSegment seg cur).text = pyStrip cur := rfl
  rcases hq with h | ⟨h1, h2⟩
  · right
    rw [htext]
    exact splitSentences_of_breakFree (pyStrip cur)
      (sbf_pyStrip cur (splitSentences_breakFree seg.text cur h))
  · left
    rw [htext, h2]
    exact h1

theorem splitLargeStep_inv (maxTokens : Int) (tc : String → Int)
    (seg : TextSegment) (sentence : String)
    (st : List TextSegment × String)
    (hsent : sentence ∈ splitSentences seg.text)
    (hsubs : ∀ sub ∈ st.1, tc sub.text ≤ maxTokens ∨
      splitSentences sub.text = [sub.text])
    (hq : st.2 = "" ∨ st.2 ∈ splitSentences seg.text ∨
      (tc st.2 ≤ maxTokens ∧ pyStrip st.2 = st.2)) :
    (∀ sub ∈ (splitLargeStep maxTokens tc seg st sentence).1,
      tc sub.text ≤ maxTokens ∨ splitSentences sub.text = [sub.text]) ∧
      ((splitLargeStep maxTokens tc seg st sentence).2 = "" ∨
        (splitLargeStep maxTokens tc seg st sentence).2 ∈
          splitSentences seg.text ∨
        (tc (splitLargeStep maxTokens tc seg st sentence).2 ≤ maxTokens ∧
          pyStrip (splitLargeStep maxTokens tc seg st sentence).2 =
            (splitLargeStep maxTokens tc seg st sentence).2)) := by
  unfold splitLargeStep
  by_cases h2 : st.2 = ""
  · rw [if_pos h2]
    by_cases ht : tc sentence > maxTokens
    · rw [if_pos ht, if_pos h2]
      exact ⟨hsubs, Or.inr (Or.inl hsent)⟩
    · rw [if_neg ht]
      exact ⟨hsubs, Or.inr (Or.inl hsent)⟩
  · rw [if_neg h2]
    by_cases ht : tc (pyStrip (st.2 ++ " " ++ sentence)) > maxTokens
    · rw [if_pos ht, if_neg h2]
      refine ⟨?_, Or.inr (Or.inl hsent)⟩
      intro sub hsub
      rcases List.mem_append.mp hsub with h | h
      · exact hsubs sub h
      · rw [List.mem_singleton] at h
        subst h
        exact mkSubSegment_spec maxTokens tc seg st.2
          (by rcases hq with h | h | h
              · exact absurd h h2
              · exact Or.inl h
              · exact Or.inr h)
    · rw [if_neg ht]
      refine ⟨hsubs, Or.inr (Or.inr ⟨?_, pyStrip_idempotent _⟩)⟩
      show tc (pyStrip (st.2 ++ " " ++ sentence)) ≤ maxTokens
      omega

theorem splitLarge_fold_inv (maxTokens : Int) (tc : String → Int)
    (seg : TextSegment) (l : List String) :
    ∀ (st : List TextSegment × String),
      (∀ x ∈ l, x ∈ splitSentences seg.text) →
      (∀ sub ∈ st.1, tc sub.text ≤ maxTokens ∨
        splitSentences sub.text = [sub.text]) →
      (st.2 = "" ∨ st.2 ∈ splitSentences seg.text ∨
        (tc st.2 ≤ maxTokens ∧ pyStrip st.2 = st.2)) →
      (∀ sub ∈ (l.foldl (splitLargeStep maxTokens tc seg) st).1,
        tc sub.text ≤ maxTokens ∨ splitSentences sub.text = [sub.text]) ∧
        ((l.foldl (splitLargeStep maxTokens tc seg) st).2 = "" ∨
          (l.foldl (splitLargeStep maxTokens tc seg) st).2 ∈
            splitSentences seg.text ∨
          (tc (l.foldl (splitLargeStep maxTokens tc seg) st).2 ≤ maxTokens ∧
            pyStrip (l.foldl (splitLargeStep maxTokens tc seg) st).2 =
              (l.foldl (splitLargeStep maxTokens tc seg) st).2)) := by
  induction l with
  | nil => intro st _ hsubs hq; exact ⟨hsubs, hq⟩
  | cons sentence rest ih =>
    intro st hl hsubs hq
    rw [List.foldl_cons]
    have hstep := splitLargeStep_inv maxTokens tc seg sentence st
      (hl sentence (List.mem_cons_self _ _)) hsubs hq
    exact ih _ (fun x hx => hl x (List.mem_cons_of_mem _ hx)) hstep.1 hstep.2

theorem split_large_segment_spec (maxTokens : Int) (tc : String → Int)
    (seg : TextSegment) :
    ∀ sub ∈ split_large_segment maxTokens tc seg,
      tc sub.text ≤ maxTokens ∨ splitSentences sub.text = [sub.text] := by
  intro sub hsub
  unfold split_large_segment at hsub
  have hfold := splitLarge_fold_inv maxTokens tc seg (splitSentences seg.text)
    ([], "") (fun x hx => hx) (by intro x hx; cases hx) (Or.inl rfl)
  set st := (splitSentences seg.text).foldl
    (splitLargeStep maxTokens tc seg) ([], "") with hst
  by_cases h2 : st.2 = ""
  · rw [if_pos h2] at hsub
    exact hfold.1 sub hsub
  · rw [if_neg h2] at hsub
    rcases List.mem_append.mp hsub with h | h
    · exact hfold.1 sub h
    · rw [List.mem_singleton] at h
      subst h
      exact mkSubSegment_spec maxTokens tc seg st.2
        (by rcases hfold.2 with h | h | h
            · exact absurd h h2
            · exact Or.inl h
            · exact Or.inr h)

theorem flushChunk_inv (maxTokens : Int) (chunks : List Chunk)
    (cur : List TextSegment) (curTok : Int) (htok : curTok ≤ maxTokens)
    (hc : ∀ c ∈ chunks, c.token_count ≤ maxTokens ∨
      ∃ s, c.segments = [s] ∧ splitSentences s.text = [s.text]) :
    ∀ c ∈ flushChunk chunks cur curTok,
      c.token_count ≤ maxTokens ∨
        ∃ s, c.segments = [s] ∧ splitSentences s.text = [s.text] := by
  unfold flushChunk
  split
  · exact hc
  · intro c hmem
    rcases List.mem_append.mp hmem with h | h
    · exact hc c h
    · rw [List.mem_singleton] at h
      subst h
      exact Or.inl htok

theorem subsFold_inv (maxTokens : Int) (tc : String → Int)
    (subs : List TextSegment)
    (hsubs : ∀ sub ∈ subs, tc sub.text ≤ maxTokens ∨
      splitSentences sub.text = [sub.text]) :
    ∀ (cs : List Chunk),
      (∀ c ∈ cs, c.token_count ≤ maxTokens ∨
        ∃ s, c.segments = [s] ∧ splitSentences s.text = [s.text]) →
      ∀ c ∈ subs.foldl
        (fun cs sub => cs ++
          [{ segments := [sub], token_count := tc sub.text,
             chunk_index := cs.length }]) cs,
        c.token_count ≤ maxTokens ∨
          ∃ s, c.segments = [s] ∧ splitSentences s.text = [s.text] := by
  induction subs with
  | nil => intro cs hcs c hmem; exact hcs c hmem
  | cons sub rest ih =>
    intro cs hcs c hmem
    rw [List.foldl_cons] at hmem
    refine ih (fun x hx => hsubs x (List.mem_cons_of_mem _ hx)) _ ?_ c hmem
    intro c' hc'
    rcases List.mem_append.mp hc' with h | h
    · exact hcs c' h
    · rw [List.mem_singleton] at h
      subst h
      rcases hsubs sub (List.mem_cons_self _ _) with h | h
      · exact Or.inl h
      · exact Or.inr ⟨sub, rfl, h⟩

theorem chunkStep_inv (maxTokens : Int) (tc : String → Int)
    (hmax : 0 ≤ maxTokens) (st : List Chunk × List TextSegment × Int)
    (seg : TextSegment)
    (htok : st.2.2 ≤ maxTokens)
    (hc : ∀ c ∈ st.1, c.token_count ≤ maxTokens ∨
      ∃ s, c.segments = [s] ∧ splitSentences s.text = [s.text]) :
    (chunkStep maxTokens tc st seg).2.2 ≤ maxTokens ∧
      ∀ c ∈ (chunkStep maxTokens tc st seg).1,
        c.token_count ≤ maxTokens ∨
          ∃ s, c.segments = [s] ∧ splitSentences s.text = [s.text] := by
  unfold chunkStep
  by_cases hskip : seg.skip_translation
  · rw [if_pos hskip]
    exact ⟨htok, hc⟩
  · rw [if_neg hskip]
    by_cases hbig : tc seg.text > maxTokens
    · rw [if_pos hbig]
      refine ⟨hmax, ?_⟩
      exact subsFold_inv maxTokens tc _
        (split_large_segment_spec maxTokens tc seg) _
        (flushChunk_inv maxTokens st.1 st.2.1 st.2.2 htok hc)
    · rw [if_neg hbig]
      by_cases hover : st.2.2 + tc seg.text > maxTokens
      · rw [if_pos hover]
        refine ⟨?_, flushChunk_inv maxTokens st.1 st.2.1 st.2.2 htok hc⟩
        show tc seg.text ≤ maxTokens
        omega
      · rw [if_neg hover]
        refine ⟨?_, hc⟩
        show st.2.2 + tc seg.text ≤ maxTokens
        omega

theorem chunkFold_inv (maxTokens : Int) (tc : String → Int)
    (hmax : 0 ≤ maxTokens) (segments : List TextSegment) :
    ∀ (st : List Chunk × List TextSegment × Int),
      st.2.2 ≤ maxTokens →
      (∀ c ∈ st.1, c.token_count ≤ maxTokens ∨
        ∃ s, c.segments = [s] ∧ splitSentences s.text = [s.text]) →
      (segments.foldl (chunkStep maxTokens tc) st).2.2 ≤ maxTokens ∧
        ∀ c ∈ (segments.foldl (chunkStep maxTokens tc) st).1,
          c.token_count ≤ maxTokens ∨
            ∃ s, c.segments = [s] ∧ splitSentences s.text = [s.text] := by
  induction segments with
  | nil => intro st htok hc; exact ⟨htok, hc⟩
  | cons seg rest ih =>
    intro st htok hc
    rw [List.foldl_cons]
    have hstep := chunkStep_inv maxTokens tc hmax st seg htok hc
    exact ih _ hstep.1 hstep.2

/-- C4: every chunk produced by `chunk_segments` under a non-negative budget
either respects the budget (`token_count ≤ max_tokens`) or consists of
exactly one segment that cannot be subdivided at sentence boundaries
(splitting its text again yields the text itself) — the irreducible
oversized case. -/
theorem chunk_token_budget (maxTokens : Int) (tc : String → Int)
    (segments : List TextSegment) (hmax : 0 ≤ maxTokens) :
    ∀ c ∈ chunk_segments maxTokens segments tc,
      c.token_count ≤ maxTokens ∨
        ∃ s, c.segments = [s] ∧ splitSentences s.text = [s.text] := by
  intro c hmem
  unfold chunk_segments at hmem
  rcases List.mem_map.mp hmem with ⟨c0, hc0, rfl⟩
  have hfold := chunkFold_inv maxTokens tc hmax segments ([], [], 0) hmax
    (by intro x hx; cases hx)
  have hflush := flushChunk_inv maxTokens
    (segments.foldl (chunkStep maxTokens tc) ([], [], 0)).1
    (segments.foldl (chunkStep maxTokens tc) ([], [], 0)).2.1
    (segments.foldl (chunkStep maxTokens tc) ([], [], 0)).2.2
    hfold.1 hfold.2
  rcases hflush c0 hc0 with h | ⟨s, hs, hsp⟩
  · exact Or.inl h
  · exact Or.inr ⟨s, by rw [← hs], hsp⟩

/-- Witness for C4 at the concrete oversized-segment job: the first chunk of
splitting `"ab. cd."` under budget 5. -/
theorem chunk_token_budget_witness :
    ({ segments := [{ text := "ab." }], token_count := 3, chunk_index := 0,
       total_chunks := 2 } : Chunk).token_count ≤ 5 ∨
      ∃ s, ({ segments := [{ text := "ab." }], token_count := 3,
              chunk_index := 0, total_chunks := 2 } : Chunk).segments = [s] ∧
        splitSentences s.text = [s.text] :=
  chunk_token_budget 5 strLenTc [{ text := "ab. cd." }] (by omega)
    { segments := [{ text := "ab." }], token_count := 3, chunk_index := 0,
      total_chunks := 2 }
    (by rw [show chunk_segments 5 [{ text := "ab. cd." }] strLenTc =
          [{ segments := [{ text := "ab." }], token_count := 3,
             chunk_index := 0, total_chunks := 2 },
           { segments := [{ text := "cd." }], token_count := 3,
             chunk_index := 1, total_chunks := 2 }] from rfl]
        exact List.mem_cons_self _ _)

theorem join_flushChunk (chunks : List Chunk) (cur : List TextSegment)
    (curTok : Int) :
    joinChunkSegments (flushChunk chunks cur curTok) =
      joinChunkSegments chunks ++ cur := by
  unfold flushChunk
  split
  · rename_i hemp
    rw [List.isEmpty_iff.mp hemp, List.append_nil]
  · simp [joinChunkSegments]

theorem join_map_total (l : List Chunk) (t : Nat) :
    joinChunkSegments (l.map (fun c => { c with total_chunks := t })) =
      joinChunkSegments l := by
  unfold joinChunkSegments
  rw [List.map_map]
  rfl

theorem chunkStep_join (maxTokens : Int) (tc : String → Int)
    (st : List Chunk × List TextSegment × Int) (seg : TextSegment)
    (hfit : seg.skip_translation = false → tc seg.text ≤ maxTokens) :
    joinChunkSegments (chunkStep maxTokens tc st seg).1 ++
        (chunkStep maxTokens tc st seg).2.1 =
      (joinChunkSegments st.1 ++ st.2.1) ++ [seg] := by
  unfold chunkStep
  by_cases hskip : seg.skip_translation
  · rw [if_pos hskip]
    simp
  · rw [if_neg hskip]
    have hle := hfit (by simpa using hskip)
    rw [if_neg (by omega)]
    by_cases hover : st.2.2 + tc seg.text > maxTokens
    · rw [if_pos hover]
      show joinChunkSegments (flushChunk st.1 st.2.1 st.2.2) ++ [seg] = _
      rw [join_flushChunk]
    · rw [if_neg hover]
      simp

theorem chunkFold_join (maxTokens : Int) (tc : String → Int)
    (segments : List TextSegment) :
    ∀ (st : List Chunk × List TextSegment × Int),
      (∀ s ∈ segments, s.skip_translation = false → tc s.text ≤ maxTokens) →
      joinChunkSegments (segments.foldl (chunkStep maxTokens tc) st).1 ++
          (segments.foldl (chunkStep maxTokens tc) st).2.1 =
        (joinChunkSegments st.1 ++ st.2.1) ++ segments := by
  induction segments with
  | nil => intro st _; simp
  | cons seg rest ih =>
    intro st hfit
    rw [List.foldl_cons]
    rw [ih _ (fun s hs => hfit s (List.mem_cons_of_mem _ hs))]
    rw [chunkStep_join maxTokens tc st seg (hfit seg (List.mem_cons_self _ _))]
    simp

/-- C1 (amended): when no translatable segment exceeds the token budget on
its own (so no segment is ever split), chunking is a lossless partition:
concatenating all chunks' segments in chunk order reproduces the input
segment sequence exactly. -/
theorem chunking_lossless_without_splits (maxTokens : Int)
    (tc : String → Int) (segments : List TextSegment)
    (hfit : ∀ s ∈ segments, s.skip_translation = false →
      tc s.text ≤ maxTokens) :
    joinChunkSegments (chunk_segments maxTokens segments tc) = segments := by
  unfold chunk_segments
  rw [join_map_total, join_flushChunk]
  have := chunkFold_join maxTokens tc segments ([], [], 0) hfit
  simpa using this

/-- Witness for C1 (amended): a three-segment document (one skip segment)
under a generous budget is partitioned losslessly. -/
theorem chunking_lossless_without_splits_witness :
    joinChunkSegments (chunk_segments 100
      [{ text := "one" }, { text := "code", skip_translation := true },
       { text := "two" }] strLenTc) =
      [{ text := "one" }, { text := "code", skip_translation := true },
       { text := "two" }] :=
  chunking_lossless_without_splits 100 strLenTc
    [{ text := "one" }, { text := "code", skip_translation := true },
     { text := "two" }]
    (by intro s hs _
        rcases List.mem_cons.mp hs with rfl | hs
        · decide
        · rcases List.mem_cons.mp hs with rfl | hs
          · decide
          · rcases List.mem_cons.mp hs with rfl | hs
            · decide
            · cases hs)

/-- C1 counterexample: chunking is **not** lossless when an oversized
segment is split at sentence boundaries.  The single segment `"ab. cd."`
(7 tokens under the character counter, budget 5) is split into two new
sub-segments `"ab."` and `"cd."`; concatenating all chunks' segments yields
two segments whose texts have lost the separating whitespace, not the
original segment sequence. -/
theorem chunking_split_not_lossless :
    (joinChunkSegments (chunk_segments 5 [{ text := "ab. cd." }]
        strLenTc)).map TextSegment.text = ["ab.", "cd."] ∧
      joinChunkSegments (chunk_segments 5 [{ text := "ab. cd." }] strLenTc) ≠
        [{ text := "ab. cd." }] := by
  refine ⟨rfl, ?_⟩
  intro h
  have h2 : (joinChunkSegments (chunk_segments 5 [{ text := "ab. cd." }]
      strLenTc)).length = 2 := rfl
  rw [h] at h2
  exact absurd h2 (by decide)
